import Mathlib

/-!
Verification of the chunked tensor-storage core (`hub/core/tensor.py`).

The facade (`tensor_exists`, `create_tensor`, `add_samples_to_tensor`,
`read_samples_from_tensor`, `_check_array_and_tensor_are_compatible`) is
embedded directly from the source.  Its collaborators (the chunk engine's
`write_bytes` / `sample_from_index_entry`, the `TensorMeta` / `IndexMeta`
records, and the `Index` selection class) are not part of the visible
source tree; those definitions are modelled from the specification and are
marked as such in their doc comments.

Representation choices, following the spec's array boundary (§6): a sample
crossing the core boundary is exactly a (dtype name, shape tuple, row-major
byte buffer) triple; bytes are `Nat`s, buffers are `List Nat`, chunks are
byte lists, and the per-key storage is a record of the two optional
metadata records plus the chunk list.
-/

/-- Errors raised by the core, keeping the Python exception names.
`dynamicTensorNumpy` is the spec's RaggedWithoutList; `notImplemented`
is the spec's UnsupportedEmptySample (the code raises
`NotImplementedError` there); `indexOutOfRange` models the Python
`IndexError` of an out-of-bounds integer subscript. -/
inductive HubError where
  | tensorAlreadyExists (key : String)
  | tensorDoesNotExist (key : String)
  | tensorMetaMismatch (field expectedV actualV : String)
  | tensorInvalidSampleShape (expectedLen actualLen : Nat) (shape : List Nat)
  | dynamicTensorNumpy (key : String)
  | notImplemented
  | indexOutOfRange
deriving DecidableEq, Repr

/-- A chunk reference: chunk identifier plus the byte range
`[start, stop)` the sample occupies inside that chunk. -/
structure ChunkRef where
  chunkId : Nat
  start : Nat
  stop : Nat
deriving DecidableEq, Repr

/-- Modelled from the spec: one entry of the `IndexMeta` append-only log
(`hub/core/meta/index_meta.py` is not in the visible source).  Field names
follow the dict keys used by `add_samples_to_tensor`
(`{"chunk_names": ...}`, `extra_sample_meta={"shape": ...}`). -/
structure IndexEntry where
  chunk_names : List ChunkRef
  shape : List Nat
deriving DecidableEq, Repr

/-- Modelled from the spec: the persisted `TensorMeta` record
(`hub/core/meta/tensor_meta.py` is not in the visible source): dtype name,
shape envelope, chunk capacity and sample count.  `dtype` is the empty
string and the envelope is empty while unset (rank/dtype unset until the
first write). -/
structure TensorMeta where
  dtype : String
  min_shape : List Nat
  max_shape : List Nat
  chunk_size : Nat
  length : Nat
deriving DecidableEq, Repr

/-- Modelled from the spec: everything persisted under one tensor key —
the optional `TensorMeta` record, the optional `IndexMeta` entry log, and
the chunk store (chunk id `i` is position `i` of `chunks`). -/
structure TensorStorage where
  metaRec : Option TensorMeta
  indexRec : Option (List IndexEntry)
  chunks : List (List Nat)
deriving DecidableEq, Repr

/-- Storage with nothing persisted at the key. -/
def emptyStorage : TensorStorage := ⟨none, none, []⟩

/-- A tensor exists if at the key there is both a tensor meta file and an
index map (source: `tensor_exists`). -/
def tensor_exists (st : TensorStorage) : Bool :=
  st.metaRec.isSome && st.indexRec.isSome

/-- Modelled from the spec: the fresh `TensorMeta` persisted by
`TensorMeta.create` — rank/dtype unset, empty envelope, zero length, chunk
capacity from the htype defaults/overrides. -/
def freshTensorMeta (chunkSize : Nat) : TensorMeta :=
  ⟨"", [], [], chunkSize, 0⟩

/-- Source `create_tensor`: fail with `TensorAlreadyExistsError` if the
tensor exists, otherwise persist a fresh `TensorMeta` and an empty
`IndexMeta` (the create calls of the two record classes are modelled from
the spec as writing fresh records). -/
def create_tensor (key : String) (chunkSize : Nat) (st : TensorStorage) :
    Except HubError TensorStorage :=
  if tensor_exists st then .error (.tensorAlreadyExists key)
  else .ok { metaRec := some (freshTensorMeta chunkSize), indexRec := some [],
             chunks := st.chunks }

/-- A batched array at the core boundary, already normalized to have an
explicit batch axis: dtype name, per-sample shape (`array.shape[1:]`), and
the row-major byte buffer of each sample (`array[i]`).  An unbatched
sample `a` enters as `⟨a.dtype, a.shape, [a.data]⟩`, mirroring
`normalize_and_batchify_array_shape`'s prepended unit axis. -/
structure NpBatch where
  dtype : String
  sampleShape : List Nat
  samples : List (List Nat)
deriving DecidableEq, Repr

/-- Modelled from the spec: `TensorMeta.update_tensor_meta_with_array` on a
first-ever write initializes dtype from the batch's dtype and seeds the
shape envelope from the per-sample shape. -/
def update_tensor_meta_with_array (meta : TensorMeta) (arr : NpBatch) : TensorMeta :=
  { meta with dtype := arr.dtype, min_shape := arr.sampleShape,
              max_shape := arr.sampleShape }

/-- Modelled from the spec: `TensorMeta.update_shape_interval` folds one
sample shape into the per-axis inclusive min/max envelope. -/
def update_shape_interval (meta : TensorMeta) (s : List Nat) : TensorMeta :=
  { meta with min_shape := meta.min_shape.zipWith min s,
              max_shape := meta.max_shape.zipWith max s }

/-- Source `_check_array_and_tensor_are_compatible`: dtype must match
exactly, then the per-sample rank must match the envelope length. -/
def check_compat (meta : TensorMeta) (arr : NpBatch) : Option HubError :=
  if meta.dtype ≠ arr.dtype then
    some (.tensorMetaMismatch "dtype" meta.dtype arr.dtype)
  else if meta.min_shape.length ≠ arr.sampleShape.length then
    some (.tensorInvalidSampleShape meta.min_shape.length arr.sampleShape.length
      arr.sampleShape)
  else none

/-- Cut a byte list into consecutive pieces of `cap` bytes (the last piece
may be shorter); fuel-driven so the definition is total even at `cap = 0`
(the engine only ever calls it with a positive capacity). -/
def chunksOfFuel (cap : Nat) : Nat → List Nat → List (List Nat)
  | _, [] => []
  | 0, _ => []
  | fuel + 1, l => l.take cap :: chunksOfFuel cap fuel (l.drop cap)

/-- Cut a byte list into consecutive pieces of at most `cap` bytes. -/
def chunksOf (cap : Nat) (l : List Nat) : List (List Nat) :=
  chunksOfFuel cap l.length l

/-- Chunk references for freshly allocated chunks holding `pieces`,
numbered from `n`, each occupying its chunk from byte 0. -/
def freshRefs (n : Nat) : List (List Nat) → List ChunkRef
  | [] => []
  | p :: ps => ⟨n, 0, p.length⟩ :: freshRefs (n + 1) ps

/-- Modelled from the spec: the ChunkWriter packing step of
`hub/core/chunk_engine/write.py`'s `write_bytes` (not in the visible
source).  Empty input touches nothing; otherwise the tail of the byte
list fills the remaining room of the open chunk (the last chunk of the
store, rewritten in full), and the remainder is packed into freshly
allocated chunks of `cap` bytes.  Returns the ordered chunk references
the sample occupies and the updated chunk store. -/
def write_bytes_refs (cap : Nat) (b : List Nat) (store : List (List Nat)) :
    List ChunkRef × List (List Nat) :=
  if b.isEmpty then ([], store)
  else if store.isEmpty || cap ≤ (store.getLastD []).length then
    (freshRefs store.length (chunksOf cap b), store ++ chunksOf cap b)
  else
    let last := store.getLastD []
    let headB := b.take (cap - last.length)
    let rest := b.drop (cap - last.length)
    (⟨store.length - 1, last.length, last.length + headB.length⟩ ::
        freshRefs store.length (chunksOf cap rest),
      store.dropLast ++ (last ++ headB) :: chunksOf cap rest)

/-- Byte range `[start, stop)` of the referenced chunk
(Python `chunk[start:stop]`). -/
def extractBytes (chunks : List (List Nat)) (r : ChunkRef) : List Nat :=
  ((chunks.getD r.chunkId []).drop r.start).take (r.stop - r.start)

/-- The state threaded through the per-sample loop of
`add_samples_to_tensor`: chunk store, index log, tensor meta. -/
structure LoopState where
  chunks : List (List Nat)
  index : List IndexEntry
  meta : TensorMeta
deriving DecidableEq, Repr

/-- One iteration of the per-sample loop of `add_samples_to_tensor`
(source lines 102–120): a sample whose shape contains a zero-length axis
writes no data (the dict built for it is never appended to the index log —
the loop only updates the shape envelope); otherwise `write_bytes` packs
the sample's bytes into the chunk store and appends the index entry, and
the shape envelope is updated. -/
def addSampleStep (cap : Nat) (shape : List Nat) (ls : LoopState)
    (d : List Nat) : LoopState :=
  if 0 ∈ shape then
    { ls with meta := update_shape_interval ls.meta shape }
  else
    let wr := write_bytes_refs cap d ls.chunks
    { chunks := wr.2,
      index := ls.index ++ [⟨wr.1, shape⟩],
      meta := update_shape_interval ls.meta shape }

/-- The per-sample loop of `add_samples_to_tensor` over a batch. -/
def addLoop (cap : Nat) (shape : List Nat) (samples : List (List Nat))
    (ls : LoopState) : LoopState :=
  samples.foldl (addSampleStep cap shape) ls

/-- Source `add_samples_to_tensor`: existence check, load of the two
records, first-write meta initialization when the stored `max_shape` is
empty, compatibility check, per-sample loop, and the single final length
increment by the batch size. -/
def add_samples_to_tensor (key : String) (arr : NpBatch) (st : TensorStorage) :
    Except HubError TensorStorage :=
  match st.metaRec, st.indexRec with
  | some meta0, some index0 =>
    let meta1 := if meta0.max_shape.length ≤ 0
      then update_tensor_meta_with_array meta0 arr else meta0
    match check_compat meta1 arr with
    | some e => .error e
    | none =>
      let ls := addLoop meta1.chunk_size arr.sampleShape arr.samples
        ⟨st.chunks, index0, meta1⟩
      .ok { metaRec := some { ls.meta with length := ls.meta.length + arr.samples.length },
            indexRec := some ls.index,
            chunks := ls.chunks }
  | _, _ => .error (.tensorDoesNotExist key)

/-- A decoded sample at the core boundary: dtype name, shape, row-major
byte buffer. -/
structure Sample where
  dtype : String
  shape : List Nat
  data : List Nat
deriving DecidableEq, Repr

/-- Modelled from the spec: `hub/core/chunk_engine/read.py`'s
`sample_from_index_entry` (not in the visible source): fetch each
referenced byte range in order, concatenate, decode with the recorded
shape and the tensor's dtype. -/
def sample_from_index_entry (chunks : List (List Nat)) (dtype : String)
    (e : IndexEntry) : Sample :=
  ⟨dtype, e.shape, (e.chunk_names.map (extractBytes chunks)).flatten⟩

/-- Modelled from the spec: the sample-axis value of a `hub.core.index.Index`
(not in the visible source) — a single offset or a contiguous range. -/
inductive Selection where
  | one : Nat → Selection
  | range : Nat → Nat → Selection
deriving DecidableEq, Repr

/-- Modelled from the spec: resolving a selection against the entry log
(`index.values[0].indices(len(entries))` plus the subscript): an integer
offset selects exactly that entry and is out of range past the end; a
range has Python slice semantics and clamps. -/
def Selection.resolve : Selection → List IndexEntry → Option (List IndexEntry)
  | .one i, es => if i < es.length then some ((es.drop i).take 1) else none
  | .range lo hi, es => some ((es.take hi).drop lo)

/-- Modelled from the spec: `index.values[0].subscriptable()` — false for
a single integer offset, true for a range. -/
def Selection.subscriptable : Selection → Bool
  | .one _ => false
  | .range _ _ => true

/-- The shape the read loop compares entry 0 against: Python's
`index_entries[i - 1]` at `i = 0` is the LAST selected entry. -/
def lastShapeInit (es : List IndexEntry) : List Nat :=
  match es.getLast? with
  | none => []
  | some e => e.shape

/-- The per-entry check sequence of the read loop (source lines 158–168):
for each entry, first the ragged check against the previous entry's shape
(skipped when `aslist`), then the zero-length-axis check. -/
def scanShapes (key : String) (aslist : Bool) : List Nat → List IndexEntry → Option HubError
  | _, [] => none
  | prev, e :: rest =>
    if aslist = false ∧ e.shape ≠ prev then some (.dynamicTensorNumpy key)
    else if 0 ∈ e.shape then some .notImplemented
    else scanShapes key aslist e.shape rest

/-- All checks the read loop performs over the selected entries. -/
def checkShapes (key : String) (aslist : Bool) (es : List IndexEntry) :
    Option HubError :=
  scanShapes key aslist (lastShapeInit es) es

/-- The value a read returns: a single sample array, a dense stacked array
with a leading batch axis (`aslist=False` over a range), or a Python list
of per-sample arrays (`aslist=True` over a range). -/
inductive ReadResult where
  | arr : Sample → ReadResult
  | stacked : List Sample → ReadResult
  | list : List Sample → ReadResult
deriving DecidableEq, Repr

/-- Source `read_samples_from_tensor`: load the two records (a missing
record is the spec's NotFound: modelled from the spec, the record load on
a missing key raises the tensor-does-not-exist error, §7), resolve the
selection, run the per-entry checks, decode each selected sample, and
shape the result according to `aslist` and subscriptability. -/
def read_samples_from_tensor (key : String) (st : TensorStorage)
    (sel : Selection) (aslist : Bool) : Except HubError ReadResult :=
  match st.indexRec with
  | none => .error (.tensorDoesNotExist key)
  | some entries =>
    match st.metaRec with
    | none => .error (.tensorDoesNotExist key)
    | some meta =>
      match sel.resolve entries with
      | none => .error .indexOutOfRange
      | some es =>
        match checkShapes key aslist es with
        | some e => .error e
        | none =>
          let samples := es.map (sample_from_index_entry st.chunks meta.dtype)
          if aslist then
            if sel.subscriptable then .ok (.list samples)
            else .ok (.arr (samples.headD ⟨meta.dtype, [], []⟩))
          else
            if sel.subscriptable then .ok (.stacked samples)
            else .ok (.arr (samples.headD ⟨meta.dtype, [], []⟩))

/-- A chunk reference that points inside the store, its byte range within
the referenced chunk. -/
def validRef (store : List (List Nat)) (r : ChunkRef) : Prop :=
  r.chunkId < store.length ∧ r.stop ≤ (store.getD r.chunkId []).length

/-- A sequence of single-sample appends (each one a `batched=False` call
of `add_samples_to_tensor`), in order: shape and row-major bytes per
sample, all of one dtype. -/
def appendSamples (key d : String) :
    List (List Nat × List Nat) → TensorStorage → Except HubError TensorStorage
  | [], st => .ok st
  | p :: rest, st =>
    match add_samples_to_tensor key ⟨d, p.1, [p.2]⟩ st with
    | .error e => .error e
    | .ok st2 => appendSamples key d rest st2

/-- The storage state produced by creating a fresh tensor and appending a
single sample of dtype int64 and shape (0,) (a zero-length axis). -/
def c2Result : Except HubError TensorStorage :=
  (create_tensor "t" 8 emptyStorage).bind
    (add_samples_to_tensor "t" ⟨"int64", [0], [[]]⟩)

/-- The storage state produced by creating a fresh tensor, appending one
int64 scalar (rank-0) sample, then appending one float64 scalar sample. -/
def c3Result : Except HubError TensorStorage :=
  ((create_tensor "t" 8 emptyStorage).bind
    (add_samples_to_tensor "t" ⟨"int64", [], [[1, 2, 3, 4, 5, 6, 7, 8]]⟩)).bind
    (add_samples_to_tensor "t" ⟨"float64", [], [[9, 9, 9, 9, 9, 9, 9, 9]]⟩)

/-- The state reached by establishing a rank-0 int64 tensor and then
appending a same-dtype batch of the wrong rank (rank 1). -/
def c6Rank0Wrong : Except HubError TensorStorage :=
  ((create_tensor "t" 8 emptyStorage).bind
    (add_samples_to_tensor "t" ⟨"int64", [], [[1, 1, 1, 1, 1, 1, 1, 1]]⟩)).bind
    (add_samples_to_tensor "t" ⟨"int64", [2], [[5, 6]]⟩)

/-- The state reached by establishing a rank-2 int64 tensor and then
appending a batch that is wrong in both rank and dtype. -/
def c6Rank2Wrong : Except HubError TensorStorage :=
  ((create_tensor "u" 8 emptyStorage).bind
    (add_samples_to_tensor "u" ⟨"int64", [2, 2], [[1, 1, 1, 1]]⟩)).bind
    (add_samples_to_tensor "u" ⟨"float32", [2], [[1, 2]]⟩)

/-- The concrete two-sample ragged tensor state used to witness the
ragged-semantics theorem: shapes (2,) and (3,), chunk capacity 3. -/
def c4St2 : TensorStorage :=
  ⟨some ⟨"u8", [2], [3], 3, 2⟩,
    some [⟨[⟨0, 0, 2⟩], [2]⟩, ⟨[⟨0, 2, 3⟩, ⟨1, 0, 2⟩], [3]⟩],
    [[1, 2, 3], [4, 5]]⟩

/-- An index state whose log records one empty-shaped sample (shape (0,),
no chunk references — exactly what the specified append would persist)
followed by one sample of shape (1,). -/
def c8Storage : TensorStorage :=
  ⟨some ⟨"int64", [0], [1], 8, 2⟩, some [⟨[], [0]⟩, ⟨[], [1]⟩], []⟩

/-- The tensor meta the per-sample loop runs with: the stored meta, after
the first-write initialization when the stored `max_shape` is empty
(source lines 93–94). -/
def loopEntryMeta (meta : TensorMeta) (arr : NpBatch) : TensorMeta :=
  if meta.max_shape.length ≤ 0 then update_tensor_meta_with_array meta arr else meta

/-- Concrete batch, meta and pre-existing index used to witness the
partial-batch theorem. -/
def c9Arr : NpBatch := ⟨"u8", [2], [[1, 2], [3, 4]]⟩

def c9Meta : TensorMeta := ⟨"u8", [2], [2], 4, 5⟩

def c9Entries : List IndexEntry := [⟨[], [9]⟩]

/-! ### Chunk-engine lemmas -/

theorem chunksOfFuel_flatten (cap : Nat) (hcap : 1 ≤ cap) :
    ∀ (fuel : Nat) (l : List Nat), l.length ≤ fuel →
      (chunksOfFuel cap fuel l).flatten = l := by
  intro fuel
  induction fuel with
  | zero =>
    intro l hl
    have hnil : l = [] := List.eq_nil_of_length_eq_zero (Nat.le_zero.mp hl)
    subst hnil
    rfl
  | succ n ih =>
    intro l hl
    match l with
    | [] => rfl
    | a :: t =>
      simp only [chunksOfFuel, List.flatten_cons]
      rw [ih ((a :: t).drop cap) ?_, List.take_append_drop]
      rw [List.length_drop]
      simp only [List.length_cons] at hl ⊢
      omega

theorem chunksOf_flatten (cap : Nat) (hcap : 1 ≤ cap) (l : List Nat) :
    (chunksOf cap l).flatten = l :=
  chunksOfFuel_flatten cap hcap l.length l (Nat.le_refl _)

theorem freshRefs_extract :
    ∀ (pieces pre : List (List Nat)),
      (freshRefs pre.length pieces).map (extractBytes (pre ++ pieces)) = pieces := by
  intro pieces
  induction pieces with
  | nil => intro pre; rfl
  | cons p ps ih =>
    intro pre
    simp only [freshRefs, List.map_cons]
    have h1 : extractBytes (pre ++ p :: ps) ⟨pre.length, 0, p.length⟩ = p := by
      unfold extractBytes
      simp only [List.getD_eq_getElem?_getD]
      rw [List.getElem?_append_right (Nat.le_refl _)]
      simp
    have h2 : (freshRefs (pre.length + 1) ps).map (extractBytes (pre ++ p :: ps)) = ps := by
      have e1 : pre ++ p :: ps = (pre ++ [p]) ++ ps := by simp
      have e2 : pre.length + 1 = (pre ++ [p]).length := by simp
      rw [e1, e2, ih (pre ++ [p])]
    rw [h1, h2]

theorem freshRefs_valid :
    ∀ (pieces pre : List (List Nat)) (r : ChunkRef),
      r ∈ freshRefs pre.length pieces → validRef (pre ++ pieces) r := by
  intro pieces
  induction pieces with
  | nil => intro pre r hr; simp [freshRefs] at hr
  | cons p ps ih =>
    intro pre r hr
    simp only [freshRefs, List.mem_cons] at hr
    rcases hr with hr | hr
    · subst hr
      refine ⟨?_, ?_⟩
      · simp only [List.length_append, List.length_cons]
        omega
      · simp only [List.getD_eq_getElem?_getD]
        rw [List.getElem?_append_right (Nat.le_refl _)]
        simp
    · have e1 : pre ++ p :: ps = (pre ++ [p]) ++ ps := by simp
      have e2 : pre.length + 1 = (pre ++ [p]).length := by simp
      rw [e1]
      exact ih (pre ++ [p]) r (by rw [← e2]; exact hr)

theorem getLastD_concat (pre : List (List Nat)) (last : List Nat) :
    (pre ++ [last]).getLastD [] = last := by
  simp [List.getLastD_eq_getLast?, List.getLast?_concat]

theorem extractBytes_append (store ext : List (List Nat)) (r : ChunkRef)
    (h : r.chunkId < store.length) :
    extractBytes (store ++ ext) r = extractBytes store r := by
  unfold extractBytes
  rw [List.getD_eq_getElem?_getD, List.getD_eq_getElem?_getD,
    List.getElem?_append_left h]

/-- Reading back, in order, the byte ranges that `write_bytes_refs`
returns reproduces exactly the bytes that were written. -/
theorem write_bytes_refs_reconstruct (cap : Nat) (hcap : 1 ≤ cap)
    (b : List Nat) (store : List (List Nat)) :
    ((write_bytes_refs cap b store).1.map
      (extractBytes (write_bytes_refs cap b store).2)).flatten = b := by
  unfold write_bytes_refs
  by_cases hb : b.isEmpty = true
  · rw [List.isEmpty_iff] at hb
    simp [hb]
  · rw [if_neg hb]
    rcases List.eq_nil_or_concat store with hst | ⟨pre, last, hst⟩
    · subst hst
      rw [if_pos (by simp)]
      have h := freshRefs_extract (chunksOf cap b) []
      simp only [List.length_nil, List.nil_append] at h
      simp only [List.length_nil, List.nil_append]
      rw [h, chunksOf_flatten cap hcap]
    · rw [List.concat_eq_append] at hst
      subst hst
      by_cases hfull : cap ≤ last.length
      · rw [if_pos (by simp [getLastD_concat, hfull])]
        simp only
        rw [freshRefs_extract (chunksOf cap b) (pre ++ [last]),
          chunksOf_flatten cap hcap]
      · rw [if_neg (by simp [getLastD_concat, hfull])]
        simp only [getLastD_concat, List.map_cons, List.flatten_cons,
          List.dropLast_concat]
        have hlen : (pre ++ [last]).length - 1 = pre.length := by simp
        have h1 : extractBytes
            (pre ++ (last ++ b.take (cap - last.length)) :: chunksOf cap (b.drop (cap - last.length)))
            ⟨(pre ++ [last]).length - 1, last.length, last.length + (b.take (cap - last.length)).length⟩
            = b.take (cap - last.length) := by
          unfold extractBytes
          simp only [hlen, List.getD_eq_getElem?_getD]
          rw [List.getElem?_append_right (Nat.le_refl _)]
          simp only [Nat.sub_self, List.getElem?_cons_zero, Option.getD_some,
            Nat.add_sub_cancel_left]
          rw [List.drop_left' rfl, List.take_of_length_le (Nat.le_refl _)]
        have h2 : (freshRefs (pre ++ [last]).length (chunksOf cap (b.drop (cap - last.length)))).map
            (extractBytes (pre ++ (last ++ b.take (cap - last.length)) :: chunksOf cap (b.drop (cap - last.length))))
            = chunksOf cap (b.drop (cap - last.length)) := by
          have hstore2 : pre ++ (last ++ b.take (cap - last.length)) :: chunksOf cap (b.drop (cap - last.length))
              = (pre ++ [last ++ b.take (cap - last.length)]) ++ chunksOf cap (b.drop (cap - last.length)) := by
            simp
          have e2 : (pre ++ [last]).length = (pre ++ [last ++ b.take (cap - last.length)]).length := by
            simp
          rw [hstore2, e2, freshRefs_extract]
        rw [h1, h2, chunksOf_flatten cap hcap, List.take_append_drop]

/-- Writing a new sample never changes the bytes read back through an
already-valid chunk reference: earlier chunks are untouched and the open
chunk only ever grows by appended bytes past every persisted range. -/
theorem write_bytes_refs_stable (cap : Nat) (b : List Nat)
    (store : List (List Nat)) (r : ChunkRef) (hr : validRef store r) :
    extractBytes (write_bytes_refs cap b store).2 r = extractBytes store r := by
  obtain ⟨hid, hstop⟩ := hr
  unfold write_bytes_refs
  by_cases hb : b.isEmpty = true
  · rw [if_pos hb]
  · rw [if_neg hb]
    rcases List.eq_nil_or_concat store with hst | ⟨pre, last, hst⟩
    · subst hst
      simp at hid
    · rw [List.concat_eq_append] at hst
      subst hst
      by_cases hfull : cap ≤ last.length
      · rw [if_pos (by simp [getLastD_concat, hfull])]
        exact extractBytes_append _ _ r hid
      · rw [if_neg (by simp [getLastD_concat, hfull])]
        simp only [getLastD_concat, List.dropLast_concat]
        simp only [List.length_append, List.length_cons, List.length_nil] at hid
        rcases Nat.lt_succ_iff_lt_or_eq.mp (by omega : r.chunkId < pre.length + 1)
          with hlt | heq
        · unfold extractBytes
          rw [List.getD_eq_getElem?_getD, List.getD_eq_getElem?_getD,
            List.getElem?_append_left hlt, List.getElem?_append_left hlt]
        · unfold extractBytes
          rw [List.getD_eq_getElem?_getD, List.getD_eq_getElem?_getD, heq,
            List.getElem?_append_right (Nat.le_refl _),
            List.getElem?_append_right (Nat.le_refl _)]
          simp only [Nat.sub_self, List.getElem?_cons_zero, Option.getD_some]
          have hstop' : r.stop ≤ last.length := by
            rw [List.getD_eq_getElem?_getD, heq,
              List.getElem?_append_right (Nat.le_refl _)] at hstop
            simpa using hstop
          by_cases hs : r.start ≤ last.length
          · rw [List.drop_append_of_le_length hs,
              List.take_append_of_le_length (by simp; omega)]
          · have h0 : r.stop - r.start = 0 := by omega
            simp [h0]

/-- The chunk references `write_bytes_refs` returns are valid in the chunk
store it returns. -/
theorem write_bytes_refs_valid (cap : Nat) (b : List Nat)
    (store : List (List Nat)) (r : ChunkRef)
    (hm : r ∈ (write_bytes_refs cap b store).1) :
    validRef (write_bytes_refs cap b store).2 r := by
  unfold write_bytes_refs at hm ⊢
  by_cases hb : b.isEmpty = true
  · rw [if_pos hb] at hm
    simp at hm
  · rw [if_neg hb] at hm ⊢
    rcases List.eq_nil_or_concat store with hst | ⟨pre, last, hst⟩
    · subst hst
      rw [if_pos (by simp)] at hm ⊢
      have h := freshRefs_valid (chunksOf cap b) []
      simp only [List.length_nil, List.nil_append] at h
      simp only [List.length_nil, List.nil_append]
      exact h r hm
    · rw [List.concat_eq_append] at hst
      subst hst
      by_cases hfull : cap ≤ last.length
      · rw [if_pos (by simp [getLastD_concat, hfull])] at hm ⊢
        exact freshRefs_valid (chunksOf cap b) (pre ++ [last]) r hm
      · rw [if_neg (by simp [getLastD_concat, hfull])] at hm ⊢
        simp only [getLastD_concat, List.dropLast_concat, List.mem_cons] at hm ⊢
        rcases hm with hm | hm
        · subst hm
          constructor
          · simp only [List.length_append, List.length_cons, List.length_nil]
            omega
          · simp only [List.getD_eq_getElem?_getD]
            have hlen : (pre ++ [last]).length - 1 = pre.length := by simp
            rw [hlen, List.getElem?_append_right (Nat.le_refl _)]
            simp
        · have hstore2 : pre ++ (last ++ b.take (cap - last.length)) :: chunksOf cap (b.drop (cap - last.length))
              = (pre ++ [last ++ b.take (cap - last.length)]) ++ chunksOf cap (b.drop (cap - last.length)) := by
            simp
          have e2 : (pre ++ [last]).length = (pre ++ [last ++ b.take (cap - last.length)]).length := by
            simp
          rw [hstore2]
          exact freshRefs_valid _ (pre ++ [last ++ b.take (cap - last.length)]) r
            (by rw [← e2]; exact hm)

/-! ### Shape-scan lemmas for the read path -/

theorem zipWith_min_self (s : List Nat) : s.zipWith min s = s := by
  rw [List.zipWith_same]
  simp

theorem zipWith_max_self (s : List Nat) : s.zipWith max s = s := by
  rw [List.zipWith_same]
  simp

theorem scanShapes_aslist_none (key : String) :
    ∀ (es : List IndexEntry) (prev : List Nat), (∀ e ∈ es, 0 ∉ e.shape) →
      scanShapes key true prev es = none := by
  intro es
  induction es with
  | nil => intro prev _; rfl
  | cons e rest ih =>
    intro prev h
    rw [scanShapes, if_neg (by simp), if_neg (h e (List.mem_cons_self e rest))]
    exact ih e.shape (fun x hx => h x (List.mem_cons_of_mem e hx))

theorem scanShapes_aslist_zero (key : String) :
    ∀ (es : List IndexEntry) (prev : List Nat), (∃ e ∈ es, 0 ∈ e.shape) →
      scanShapes key true prev es = some .notImplemented := by
  intro es
  induction es with
  | nil => intro prev h; simp at h
  | cons e rest ih =>
    intro prev h
    rw [scanShapes, if_neg (by simp)]
    by_cases hz : 0 ∈ e.shape
    · rw [if_pos hz]
    · rw [if_neg hz]
      rcases h with ⟨x, hx, hxz⟩
      rcases List.mem_cons.mp hx with rfl | hx'
      · exact absurd hxz hz
      · exact ih e.shape ⟨x, hx', hxz⟩

theorem scanShapes_nonragged_iff (key : String) :
    ∀ (es : List IndexEntry) (prev : List Nat), (∀ e ∈ es, 0 ∉ e.shape) →
      (scanShapes key false prev es = none ↔ ∀ e ∈ es, e.shape = prev) := by
  intro es
  induction es with
  | nil => intro prev _; simp [scanShapes]
  | cons e rest ih =>
    intro prev h
    by_cases hsh : e.shape = prev
    · rw [scanShapes, if_neg (by simp [hsh]), if_neg (h e (List.mem_cons_self e rest))]
      rw [ih e.shape (fun x hx => h x (List.mem_cons_of_mem e hx))]
      constructor
      · intro hall x hx
        rcases List.mem_cons.mp hx with rfl | hx'
        · exact hsh
        · rw [hall x hx', hsh]
      · intro hall x hx
        rw [hall x (List.mem_cons_of_mem e hx), ← hsh]
    · rw [scanShapes, if_pos (by exact ⟨rfl, hsh⟩)]
      constructor
      · intro hcon; exact absurd hcon (by simp)
      · intro hall; exact absurd (hall e (List.mem_cons_self e rest)) hsh

theorem scanShapes_zero_cases (key : String) :
    ∀ (es : List IndexEntry) (prev : List Nat), (∃ e ∈ es, 0 ∈ e.shape) →
      scanShapes key false prev es = some .notImplemented ∨
      scanShapes key false prev es = some (.dynamicTensorNumpy key) := by
  intro es
  induction es with
  | nil => intro prev h; simp at h
  | cons e rest ih =>
    intro prev h
    by_cases hsh : e.shape = prev
    · rw [scanShapes, if_neg (by simp [hsh])]
      by_cases hz : 0 ∈ e.shape
      · rw [if_pos hz]; exact Or.inl rfl
      · rw [if_neg hz]
        rcases h with ⟨x, hx, hxz⟩
        rcases List.mem_cons.mp hx with rfl | hx'
        · exact absurd hxz hz
        · exact ih e.shape ⟨x, hx', hxz⟩
    · rw [scanShapes, if_pos (by exact ⟨rfl, hsh⟩)]
      exact Or.inr rfl

theorem scanShapes_allEq_zero (key : String) (aslist : Bool) (prev : List Nat)
    (es : List IndexEntry) (hne : es ≠ [])
    (hall : ∀ e ∈ es, e.shape = prev) (hz : 0 ∈ prev) :
    scanShapes key aslist prev es = some .notImplemented := by
  match es, hne with
  | e :: rest, _ =>
    have hsh : e.shape = prev := hall e (List.mem_cons_self e rest)
    rw [scanShapes, if_neg (by simp [hsh]), if_pos (by rw [hsh]; exact hz)]

theorem checkShapes_allEqual_iff (key : String) (es : List IndexEntry)
    (h : ∀ e ∈ es, 0 ∉ e.shape) :
    (checkShapes key false es = none ↔ ∀ e ∈ es, ∀ e2 ∈ es, e.shape = e2.shape) := by
  match es with
  | [] => simp [checkShapes, scanShapes]
  | e0 :: rest =>
    have hne : e0 :: rest ≠ [] := by simp
    have hlast : lastShapeInit (e0 :: rest) = ((e0 :: rest).getLast hne).shape := by
      rw [lastShapeInit, List.getLast?_eq_getLast (e0 :: rest) hne]
    have hmem : (e0 :: rest).getLast hne ∈ e0 :: rest := List.getLast_mem hne
    rw [checkShapes, hlast, scanShapes_nonragged_iff key (e0 :: rest) _ h]
    constructor
    · intro hall x hx y hy
      rw [hall x hx, hall y hy]
    · intro hpair x hx
      exact hpair x hx _ hmem

/-! ### Per-sample loop lemmas -/

theorem addSampleStep_meta_length (cap : Nat) (shape : List Nat)
    (ls : LoopState) (d : List Nat) :
    (addSampleStep cap shape ls d).meta.length = ls.meta.length := by
  unfold addSampleStep update_shape_interval
  by_cases h : 0 ∈ shape <;> simp [h]

theorem addSampleStep_index_grows (cap : Nat) (shape : List Nat)
    (ls : LoopState) (d : List Nat) :
    ∃ t, (addSampleStep cap shape ls d).index = ls.index ++ t ∧
      t.length = if 0 ∈ shape then 0 else 1 := by
  unfold addSampleStep
  by_cases h : 0 ∈ shape
  · exact ⟨[], by simp [h]⟩
  · exact ⟨[⟨(write_bytes_refs cap d ls.chunks).1, shape⟩], by simp [h]⟩

theorem addLoop_meta_length (cap : Nat) (shape : List Nat) :
    ∀ (samples : List (List Nat)) (ls : LoopState),
      (addLoop cap shape samples ls).meta.length = ls.meta.length := by
  intro samples
  induction samples with
  | nil => intro ls; rfl
  | cons d rest ih =>
    intro ls
    show (addLoop cap shape rest (addSampleStep cap shape ls d)).meta.length = _
    rw [ih, addSampleStep_meta_length]

theorem addLoop_split (cap : Nat) (shape : List Nat)
    (samples : List (List Nat)) (k : Nat) (ls : LoopState) :
    addLoop cap shape samples ls =
      addLoop cap shape (samples.drop k) (addLoop cap shape (samples.take k) ls) := by
  unfold addLoop
  rw [← List.foldl_append, List.take_append_drop]

theorem addLoop_index_grows (cap : Nat) (shape : List Nat) :
    ∀ (samples : List (List Nat)) (ls : LoopState),
      ∃ t, (addLoop cap shape samples ls).index = ls.index ++ t ∧
        t.length = if 0 ∈ shape then 0 else samples.length := by
  intro samples
  induction samples with
  | nil => intro ls; exact ⟨[], by simp [addLoop]⟩
  | cons d rest ih =>
    intro ls
    obtain ⟨t1, ht1, hl1⟩ := addSampleStep_index_grows cap shape ls d
    obtain ⟨t2, ht2, hl2⟩ := ih (addSampleStep cap shape ls d)
    refine ⟨t1 ++ t2, ?_, ?_⟩
    · show (addLoop cap shape rest (addSampleStep cap shape ls d)).index = _
      rw [ht2, ht1, List.append_assoc]
    · rw [List.length_append, hl1, hl2]
      by_cases h : 0 ∈ shape <;> simp [h, Nat.add_comm]

/-! ### Envelope lemmas -/

theorem add_one_env (key d : String) (s data : List Nat) (m : TensorMeta)
    (entries : List IndexEntry) (chunks : List (List Nat))
    (hdt : m.dtype = d) (hminl : m.min_shape.length = s.length)
    (hmaxl : m.max_shape.length = s.length) :
    ∃ ch2 e2, add_samples_to_tensor key ⟨d, s, [data]⟩ ⟨some m, some entries, chunks⟩ =
      .ok ⟨some ⟨d, m.min_shape.zipWith min s, m.max_shape.zipWith max s,
        m.chunk_size, m.length + 1⟩, some e2, ch2⟩ := by
  unfold add_samples_to_tensor
  simp only
  by_cases h0 : s.length = 0
  · have hsnil : s = [] := List.eq_nil_of_length_eq_zero h0
    have hminnil : m.min_shape = [] := List.eq_nil_of_length_eq_zero (by omega)
    have hmaxnil : m.max_shape = [] := List.eq_nil_of_length_eq_zero (by omega)
    rw [if_pos (by rw [hmaxnil]; exact Nat.le_refl 0)]
    subst hsnil
    unfold check_compat update_tensor_meta_with_array
    rw [if_neg (by simp), if_neg (by simp)]
    simp only [addLoop, List.foldl_cons, List.foldl_nil]
    unfold addSampleStep
    rw [if_neg (by simp)]
    unfold update_shape_interval
    simp only [hminnil, hmaxnil]
    exact ⟨_, _, rfl⟩
  · rw [if_neg (by omega)]
    unfold check_compat
    rw [if_neg (by simp [hdt]), if_neg (by simp [hminl])]
    simp only [addLoop, List.foldl_cons, List.foldl_nil]
    unfold addSampleStep
    by_cases hz : 0 ∈ s
    · rw [if_pos hz]
      unfold update_shape_interval
      simp only [hdt]
      exact ⟨_, _, rfl⟩
    · rw [if_neg hz]
      unfold update_shape_interval
      simp only [hdt]
      exact ⟨_, _, rfl⟩

theorem add_first_env (key d : String) (s data : List Nat) (cap : Nat)
    (entries : List IndexEntry) (chunks : List (List Nat)) :
    ∃ ch2 e2, add_samples_to_tensor key ⟨d, s, [data]⟩
        ⟨some (freshTensorMeta cap), some entries, chunks⟩ =
      .ok ⟨some ⟨d, s, s, cap, 1⟩, some e2, ch2⟩ := by
  unfold add_samples_to_tensor freshTensorMeta
  simp only
  rw [if_pos (by simp)]
  unfold update_tensor_meta_with_array check_compat
  rw [if_neg (by simp), if_neg (by simp)]
  simp only [addLoop, List.foldl_cons, List.foldl_nil]
  unfold addSampleStep
  by_cases hz : 0 ∈ s
  · rw [if_pos hz]
    unfold update_shape_interval
    simp only [zipWith_min_self, zipWith_max_self]
    exact ⟨_, _, rfl⟩
  · rw [if_neg hz]
    unfold update_shape_interval
    simp only [zipWith_min_self, zipWith_max_self]
    exact ⟨_, _, rfl⟩

theorem appendSamples_env (key d : String) :
    ∀ (sd : List (List Nat × List Nat)) (m : TensorMeta)
      (entries : List IndexEntry) (chunks : List (List Nat)),
      m.dtype = d →
      (∀ p ∈ sd, p.1.length = m.min_shape.length) →
      m.max_shape.length = m.min_shape.length →
      ∃ st m2, appendSamples key d sd ⟨some m, some entries, chunks⟩ = .ok st ∧
        st.metaRec = some m2 ∧
        m2.min_shape = sd.foldl (fun a p => a.zipWith min p.1) m.min_shape ∧
        m2.max_shape = sd.foldl (fun a p => a.zipWith max p.1) m.max_shape ∧
        m2.min_shape.length = m.min_shape.length ∧
        m2.max_shape.length = m.min_shape.length := by
  intro sd
  induction sd with
  | nil =>
    intro m entries chunks hd _ hml
    exact ⟨_, m, rfl, rfl, rfl, rfl, rfl, hml⟩
  | cons p rest ih =>
    intro m entries chunks hd hall hml
    have hp : p.1.length = m.min_shape.length := hall p (List.mem_cons_self p rest)
    obtain ⟨ch2, e2, heq⟩ := add_one_env key d p.1 p.2 m entries chunks hd
      hp.symm (by omega)
    have hm'min : (m.min_shape.zipWith min p.1).length = m.min_shape.length := by
      rw [List.length_zipWith]
      omega
    have hm'max : (m.max_shape.zipWith max p.1).length = m.min_shape.length := by
      rw [List.length_zipWith]
      omega
    obtain ⟨st, m2, h2, hmr, hmin, hmax, hl1, hl2⟩ :=
      ih ⟨d, m.min_shape.zipWith min p.1, m.max_shape.zipWith max p.1,
          m.chunk_size, m.length + 1⟩ e2 ch2 rfl
        (fun q hq => by
          show q.1.length = (m.min_shape.zipWith min p.1).length
          rw [hm'min]
          exact hall q (List.mem_cons_of_mem p hq))
        (by show (m.max_shape.zipWith max p.1).length = (m.min_shape.zipWith min p.1).length
            rw [hm'min, hm'max])
    refine ⟨st, m2, ?_, hmr, ?_, ?_, ?_, ?_⟩
    · rw [appendSamples, heq]
      exact h2
    · rw [hmin, List.foldl_cons]
    · rw [hmax, List.foldl_cons]
    · rw [hl1]
      exact hm'min
    · rw [hl2]
      exact hm'min

/-! ### Nat fold min/max helpers -/

theorem foldl_minf_le_init {α : Type} (f : α → Nat) :
    ∀ (l : List α) (a : Nat), List.foldl (fun x y => min x (f y)) a l ≤ a := by
  intro l
  induction l with
  | nil => intro a; exact Nat.le_refl a
  | cons b t ih =>
    intro a
    exact Nat.le_trans (ih (min a (f b))) (Nat.min_le_left a (f b))

theorem foldl_minf_le_mem {α : Type} (f : α → Nat) :
    ∀ (l : List α) (a : Nat) (x : α), x ∈ l →
      List.foldl (fun x y => min x (f y)) a l ≤ f x := by
  intro l
  induction l with
  | nil => intro a x hx; simp at hx
  | cons b t ih =>
    intro a x hx
    rcases List.mem_cons.mp hx with rfl | hx'
    · exact Nat.le_trans (foldl_minf_le_init f t (min a (f x))) (Nat.min_le_right a (f x))
    · exact ih (min a (f b)) x hx'

theorem foldl_minf_attained {α : Type} (f : α → Nat) :
    ∀ (l : List α) (a : Nat),
      List.foldl (fun x y => min x (f y)) a l = a ∨
      ∃ x ∈ l, List.foldl (fun x y => min x (f y)) a l = f x := by
  intro l
  induction l with
  | nil => intro a; exact Or.inl rfl
  | cons b t ih =>
    intro a
    rcases ih (min a (f b)) with h | ⟨x, hx, hfx⟩
    · rcases min_choice a (f b) with hm | hm
      · exact Or.inl (by rw [List.foldl_cons, h, hm])
      · exact Or.inr ⟨b, List.mem_cons_self b t, by rw [List.foldl_cons, h, hm]⟩
    · exact Or.inr ⟨x, List.mem_cons_of_mem b hx, by rw [List.foldl_cons, hfx]⟩

theorem foldl_maxf_ge_init {α : Type} (f : α → Nat) :
    ∀ (l : List α) (a : Nat), a ≤ List.foldl (fun x y => max x (f y)) a l := by
  intro l
  induction l with
  | nil => intro a; exact Nat.le_refl a
  | cons b t ih =>
    intro a
    exact Nat.le_trans (Nat.le_max_left a (f b)) (ih (max a (f b)))

theorem foldl_maxf_ge_mem {α : Type} (f : α → Nat) :
    ∀ (l : List α) (a : Nat) (x : α), x ∈ l →
      f x ≤ List.foldl (fun x y => max x (f y)) a l := by
  intro l
  induction l with
  | nil => intro a x hx; simp at hx
  | cons b t ih =>
    intro a x hx
    rcases List.mem_cons.mp hx with rfl | hx'
    · exact Nat.le_trans (Nat.le_max_right a (f x)) (foldl_maxf_ge_init f t (max a (f x)))
    · exact ih (max a (f b)) x hx'

theorem foldl_maxf_attained {α : Type} (f : α → Nat) :
    ∀ (l : List α) (a : Nat),
      List.foldl (fun x y => max x (f y)) a l = a ∨
      ∃ x ∈ l, List.foldl (fun x y => max x (f y)) a l = f x := by
  intro l
  induction l with
  | nil => intro a; exact Or.inl rfl
  | cons b t ih =>
    intro a
    rcases ih (max a (f b)) with h | ⟨x, hx, hfx⟩
    · rcases max_choice a (f b) with hm | hm
      · exact Or.inl (by rw [List.foldl_cons, h, hm])
      · exact Or.inr ⟨b, List.mem_cons_self b t, by rw [List.foldl_cons, h, hm]⟩
    · exact Or.inr ⟨x, List.mem_cons_of_mem b hx, by rw [List.foldl_cons, hfx]⟩

theorem getD_zipWith_f (f : Nat → Nat → Nat) (a b : List Nat) (j : Nat)
    (hja : j < a.length) (hjb : j < b.length) :
    (a.zipWith f b).getD j 0 = f (a.getD j 0) (b.getD j 0) := by
  simp only [List.getD_eq_getElem?_getD]
  rw [List.getElem?_zipWith, List.getElem?_eq_getElem hja, List.getElem?_eq_getElem hjb]
  simp

theorem foldl_zipWith_getD (f : Nat → Nat → Nat) (j : Nat) :
    ∀ (sd : List (List Nat × List Nat)) (init : List Nat),
      (∀ p ∈ sd, p.1.length = init.length) → j < init.length →
      (sd.foldl (fun a p => a.zipWith f p.1) init).getD j 0 =
        sd.foldl (fun a p => f a (p.1.getD j 0)) (init.getD j 0) := by
  intro sd
  induction sd with
  | nil => intro init _ _; rfl
  | cons p rest ih =>
    intro init hall hj
    have hp : p.1.length = init.length := hall p (List.mem_cons_self p rest)
    have hlen : (init.zipWith f p.1).length = init.length := by
      rw [List.length_zipWith]
      omega
    rw [List.foldl_cons, List.foldl_cons,
      ih (init.zipWith f p.1) (fun q hq => by rw [hlen]; exact hall q (List.mem_cons_of_mem p hq))
        (by omega),
      getD_zipWith_f f init p.1 j hj (by omega)]

/-! ### Read-path helpers -/

theorem read_ok_of_checks (key : String) (meta : TensorMeta)
    (entries : List IndexEntry) (chunks : List (List Nat)) (sel : Selection)
    (aslist : Bool) (es : List IndexEntry)
    (hres : sel.resolve entries = some es)
    (hchk : checkShapes key aslist es = none) :
    read_samples_from_tensor key ⟨some meta, some entries, chunks⟩ sel aslist =
      (if aslist then
        if sel.subscriptable then
          .ok (.list (es.map (sample_from_index_entry chunks meta.dtype)))
        else
          .ok (.arr ((es.map (sample_from_index_entry chunks meta.dtype)).headD
            ⟨meta.dtype, [], []⟩))
      else if sel.subscriptable then
        .ok (.stacked (es.map (sample_from_index_entry chunks meta.dtype)))
      else
        .ok (.arr ((es.map (sample_from_index_entry chunks meta.dtype)).headD
          ⟨meta.dtype, [], []⟩))) := by
  unfold read_samples_from_tensor
  dsimp only
  rw [hres]
  dsimp only
  rw [hchk]

theorem read_error_of_check (key : String) (meta : TensorMeta)
    (entries : List IndexEntry) (chunks : List (List Nat)) (sel : Selection)
    (aslist : Bool) (es : List IndexEntry) (e : HubError)
    (hres : sel.resolve entries = some es)
    (hchk : checkShapes key aslist es = some e) :
    read_samples_from_tensor key ⟨some meta, some entries, chunks⟩ sel aslist =
      .error e := by
  unfold read_samples_from_tensor
  dsimp only
  rw [hres]
  dsimp only
  rw [hchk]

theorem resolve_mem (sel : Selection) (entries es : List IndexEntry)
    (hres : sel.resolve entries = some es) : ∀ e ∈ es, e ∈ entries := by
  intro e he
  cases sel with
  | one i =>
    simp only [Selection.resolve] at hres
    by_cases hi : i < entries.length
    · rw [if_pos hi] at hres
      cases hres
      exact List.mem_of_mem_drop (List.mem_of_mem_take he)
    · rw [if_neg hi] at hres
      cases hres
  | range lo hi =>
    simp only [Selection.resolve] at hres
    cases hres
    exact List.mem_of_mem_take (List.mem_of_mem_drop he)

/-! ### Claim theorems -/

/-- C2: appending a sample whose shape contains a zero-length axis
succeeds and touches no chunk, but — contrary to the claim — the
`{"chunk_names": []}` entry built for it is never appended to the index
log: the log stays empty while `length` still becomes 1, so the sample
does not occupy a position in the entry sequence. -/
theorem C2_empty_sample_drops_index_entry :
    c2Result = .ok ⟨some ⟨"int64", [0], [0], 8, 1⟩, some [], []⟩ := rfl

/-- C3: for a rank-0 tensor the stored `max_shape` is always empty, so the
first-write test `len(max_shape) <= 0` fires on every append and
re-initializes the meta: appending a float64 scalar to an int64 rank-0
tensor succeeds and silently overwrites the stored dtype with "float64"
instead of failing with the dtype mismatch error. -/
theorem C3_rank0_dtype_overwritten :
    c3Result = .ok ⟨some ⟨"float64", [], [], 8, 2⟩,
      some [⟨[⟨0, 0, 8⟩], []⟩, ⟨[⟨1, 0, 8⟩], []⟩],
      [[1, 2, 3, 4, 5, 6, 7, 8], [9, 9, 9, 9, 9, 9, 9, 9]]⟩ := rfl

/-- C5: on a key where no tensor exists (at least one of the two records
is missing), append fails with the tensor-does-not-exist error before any
mutation, and read fails the same way while loading the records, before
any other step. -/
theorem C5_missing_tensor_notfound (key : String) (arr : NpBatch)
    (sel : Selection) (aslist : Bool) (st : TensorStorage)
    (h : tensor_exists st = false) :
    add_samples_to_tensor key arr st = .error (.tensorDoesNotExist key) ∧
    read_samples_from_tensor key st sel aslist = .error (.tensorDoesNotExist key) := by
  obtain ⟨mo, io, ch⟩ := st
  unfold tensor_exists at h
  cases mo <;> cases io <;>
    simp_all [add_samples_to_tensor, read_samples_from_tensor]

theorem C5_witness :
    tensor_exists emptyStorage = false ∧
    (add_samples_to_tensor "k" ⟨"int64", [2], [[1, 2]]⟩ emptyStorage =
        .error (.tensorDoesNotExist "k") ∧
      read_samples_from_tensor "k" emptyStorage (.one 0) false =
        .error (.tensorDoesNotExist "k")) :=
  ⟨rfl, C5_missing_tensor_notfound "k" ⟨"int64", [2], [[1, 2]]⟩ (.one 0) false
    emptyStorage rfl⟩

/-- C10: `create_tensor` fails with AlreadyExists exactly when both the
meta record and the index record are present; when exactly one of the two
survives, create succeeds and overwrites it with a fresh empty pair of
records. -/
theorem C10_create_half_exists (key : String) (cap : Nat) (st : TensorStorage) :
    (create_tensor key cap st = .error (.tensorAlreadyExists key) ↔
      st.metaRec.isSome = true ∧ st.indexRec.isSome = true) ∧
    (st.metaRec.isSome ≠ st.indexRec.isSome →
      create_tensor key cap st =
        .ok ⟨some (freshTensorMeta cap), some [], st.chunks⟩) := by
  obtain ⟨mo, io, ch⟩ := st
  cases mo <;> cases io <;> simp [create_tensor, tensor_exists]

theorem C10_witness :
    ((some (freshTensorMeta 8) : Option TensorMeta).isSome ≠
      (none : Option (List IndexEntry)).isSome) ∧
    create_tensor "k" 8 ⟨some (freshTensorMeta 8), none, []⟩ =
      .ok ⟨some (freshTensorMeta 8), some [], []⟩ :=
  ⟨by decide, (C10_create_half_exists "k" 8 ⟨some (freshTensorMeta 8), none, []⟩).2
    (by decide)⟩

/-- C6 counterexample, refuting the claim as stated in two ways: a
same-dtype, wrong-rank append to an established rank-0 tensor succeeds
outright (the empty `max_shape` is mistaken for a first write and the meta
is re-initialized), and a wrong-rank append whose dtype also differs fails
with the dtype mismatch error, not with `TensorInvalidSampleShapeError`. -/
theorem C6_counterexample :
    c6Rank0Wrong = .ok ⟨some ⟨"int64", [2], [2], 8, 2⟩,
      some [⟨[⟨0, 0, 8⟩], []⟩, ⟨[⟨1, 0, 2⟩], [2]⟩],
      [[1, 1, 1, 1, 1, 1, 1, 1], [5, 6]]⟩ ∧
    c6Rank2Wrong = .error (.tensorMetaMismatch "dtype" "int64" "float32") :=
  ⟨rfl, rfl⟩

/-- C6 (amended): for a tensor whose established rank is nonzero, a batch
with matching dtype but differing per-sample rank is rejected with
`TensorInvalidSampleShapeError` reporting the expected and the actual
rank, before any chunk or index mutation. -/
theorem C6_rank_mismatch (key : String) (st : TensorStorage)
    (meta : TensorMeta) (entries : List IndexEntry) (arr : NpBatch)
    (hm : st.metaRec = some meta) (hi : st.indexRec = some entries)
    (hrank : meta.max_shape.length ≠ 0)
    (hd : arr.dtype = meta.dtype)
    (hr : arr.sampleShape.length ≠ meta.min_shape.length) :
    add_samples_to_tensor key arr st =
      .error (.tensorInvalidSampleShape meta.min_shape.length
        arr.sampleShape.length arr.sampleShape) := by
  obtain ⟨mo, io, ch⟩ := st
  simp only at hm hi
  subst hm
  subst hi
  unfold add_samples_to_tensor
  dsimp only
  rw [if_neg (by omega)]
  unfold check_compat
  rw [if_neg (by simp [hd]), if_pos (by omega)]

theorem C6_witness :
    ((⟨"int64", [2, 2], [2, 2], 8, 1⟩ : TensorMeta).max_shape.length ≠ 0) ∧
    (("int64" : String) = (⟨"int64", [2, 2], [2, 2], 8, 1⟩ : TensorMeta).dtype) ∧
    (([2] : List Nat).length ≠ (⟨"int64", [2, 2], [2, 2], 8, 1⟩ : TensorMeta).min_shape.length) ∧
    add_samples_to_tensor "k" ⟨"int64", [2], [[1, 2]]⟩
        ⟨some ⟨"int64", [2, 2], [2, 2], 8, 1⟩, some [], []⟩ =
      .error (.tensorInvalidSampleShape 2 1 [2]) :=
  ⟨by decide, rfl, by decide,
    C6_rank_mismatch "k" ⟨some ⟨"int64", [2, 2], [2, 2], 8, 1⟩, some [], []⟩
      ⟨"int64", [2, 2], [2, 2], 8, 1⟩ [] ⟨"int64", [2], [[1, 2]]⟩ rfl rfl
      (by decide) rfl (by decide)⟩

/-- C1: for any dtype name, any sample shape without a zero-length axis
and any row-major byte buffer, creating a fresh tensor, appending the
sample, and reading it back at offset 0 yields a sample with identical
dtype, shape and bytes. -/
theorem C1_round_trip (key d : String) (s data : List Nat) (cap : Nat)
    (hcap : 1 ≤ cap) (hs : 0 ∉ s) (st0 st1 : TensorStorage)
    (h0 : create_tensor key cap emptyStorage = .ok st0)
    (h1 : add_samples_to_tensor key ⟨d, s, [data]⟩ st0 = .ok st1) :
    read_samples_from_tensor key st1 (.one 0) false = .ok (.arr ⟨d, s, data⟩) := by
  have hc : create_tensor key cap emptyStorage =
      .ok ⟨some (freshTensorMeta cap), some [], []⟩ := rfl
  rw [hc] at h0
  injection h0 with h0'
  subst h0'
  unfold add_samples_to_tensor at h1
  dsimp only at h1
  rw [if_pos (by simp [freshTensorMeta])] at h1
  unfold freshTensorMeta update_tensor_meta_with_array check_compat at h1
  dsimp only at h1
  rw [if_neg (by simp), if_neg (by simp)] at h1
  simp only [addLoop, List.foldl_cons, List.foldl_nil] at h1
  unfold addSampleStep at h1
  rw [if_neg hs] at h1
  unfold update_shape_interval at h1
  dsimp only at h1
  simp only [zipWith_min_self, zipWith_max_self, List.nil_append, Nat.zero_add,
    List.length_cons, List.length_nil] at h1
  injection h1 with h1'
  subst h1'
  have hres : Selection.resolve (.one 0)
      [⟨(write_bytes_refs cap data []).1, s⟩] =
      some [⟨(write_bytes_refs cap data []).1, s⟩] := by
    simp [Selection.resolve]
  have hchk : checkShapes key false [⟨(write_bytes_refs cap data []).1, s⟩] = none := by
    simp [checkShapes, lastShapeInit, scanShapes, hs]
  rw [read_ok_of_checks key ⟨d, s, s, cap, 1⟩
    [⟨(write_bytes_refs cap data []).1, s⟩] (write_bytes_refs cap data []).2
    (.one 0) false [⟨(write_bytes_refs cap data []).1, s⟩] hres hchk]
  simp only [Selection.subscriptable, Bool.false_eq_true, if_false,
    List.map_cons, List.map_nil, List.headD_cons]
  unfold sample_from_index_entry
  dsimp only
  rw [write_bytes_refs_reconstruct cap hcap data []]

theorem C1_witness :
    (1 ≤ 5) ∧ (0 ∉ ([2, 2] : List Nat)) ∧
    create_tensor "k" 5 emptyStorage = .ok ⟨some (freshTensorMeta 5), some [], []⟩ ∧
    add_samples_to_tensor "k" ⟨"int64", [2, 2], [[1, 2, 3, 4, 5, 6, 7, 8]]⟩
        ⟨some (freshTensorMeta 5), some [], []⟩ =
      .ok ⟨some ⟨"int64", [2, 2], [2, 2], 5, 1⟩,
        some [⟨[⟨0, 0, 5⟩, ⟨1, 0, 3⟩], [2, 2]⟩], [[1, 2, 3, 4, 5], [6, 7, 8]]⟩ ∧
    read_samples_from_tensor "k" ⟨some ⟨"int64", [2, 2], [2, 2], 5, 1⟩,
        some [⟨[⟨0, 0, 5⟩, ⟨1, 0, 3⟩], [2, 2]⟩], [[1, 2, 3, 4, 5], [6, 7, 8]]⟩
        (.one 0) false =
      .ok (.arr ⟨"int64", [2, 2], [1, 2, 3, 4, 5, 6, 7, 8]⟩) :=
  ⟨by decide, by decide, rfl, rfl,
    C1_round_trip "k" "int64" [2, 2] [1, 2, 3, 4, 5, 6, 7, 8] 5 (by decide) (by decide)
      ⟨some (freshTensorMeta 5), some [], []⟩
      ⟨some ⟨"int64", [2, 2], [2, 2], 5, 1⟩,
        some [⟨[⟨0, 0, 5⟩, ⟨1, 0, 3⟩], [2, 2]⟩], [[1, 2, 3, 4, 5], [6, 7, 8]]⟩
      rfl rfl⟩

theorem add_fresh_explicit (key d : String) (s data : List Nat) (cap : Nat)
    (entries : List IndexEntry) (chunks : List (List Nat)) (hz : 0 ∉ s) :
    add_samples_to_tensor key ⟨d, s, [data]⟩
        ⟨some (freshTensorMeta cap), some entries, chunks⟩ =
      .ok ⟨some ⟨d, s, s, cap, 1⟩,
        some (entries ++ [⟨(write_bytes_refs cap data chunks).1, s⟩]),
        (write_bytes_refs cap data chunks).2⟩ := by
  unfold add_samples_to_tensor
  dsimp only
  rw [if_pos (by simp [freshTensorMeta])]
  unfold freshTensorMeta update_tensor_meta_with_array check_compat
  dsimp only
  rw [if_neg (by simp), if_neg (by simp)]
  simp only [addLoop, List.foldl_cons, List.foldl_nil]
  unfold addSampleStep
  rw [if_neg hz]
  unfold update_shape_interval
  dsimp only
  simp only [zipWith_min_self, zipWith_max_self, List.length_cons, List.length_nil,
    Nat.zero_add]

theorem add_one_explicit (key d : String) (s data : List Nat) (m : TensorMeta)
    (entries : List IndexEntry) (chunks : List (List Nat))
    (hmax : m.max_shape.length ≠ 0) (hdt : m.dtype = d)
    (hrank : m.min_shape.length = s.length) (hz : 0 ∉ s) :
    add_samples_to_tensor key ⟨d, s, [data]⟩ ⟨some m, some entries, chunks⟩ =
      .ok ⟨some ⟨m.dtype, m.min_shape.zipWith min s, m.max_shape.zipWith max s,
          m.chunk_size, m.length + 1⟩,
        some (entries ++ [⟨(write_bytes_refs m.chunk_size data chunks).1, s⟩]),
        (write_bytes_refs m.chunk_size data chunks).2⟩ := by
  unfold add_samples_to_tensor
  dsimp only
  rw [if_neg (by omega)]
  unfold check_compat
  rw [if_neg (by simp [hdt]), if_neg (by simp [hrank])]
  simp only [addLoop, List.foldl_cons, List.foldl_nil]
  unfold addSampleStep
  rw [if_neg hz]
  unfold update_shape_interval
  dsimp only
  simp only [List.length_cons, List.length_nil, Nat.zero_add]

/-- C4: after appending two same-rank, differently shaped samples (with no
zero-length axes — empty samples are unreadable by design) to a fresh
tensor, the dense full-range read fails with the ragged-read error while
the same read with `aslist` returns both samples, shapes and bytes intact;
moreover a dense read of any resolvable selection succeeds exactly when
all selected shapes are identical. -/
theorem C4_ragged_semantics (key d : String) (cap : Nat)
    (s1 s2 d1 d2 : List Nat) (hcap : 1 ≤ cap)
    (hrank : s1.length = s2.length) (hne : s1 ≠ s2)
    (h1 : 0 ∉ s1) (h2 : 0 ∉ s2) (st0 st1 st2 : TensorStorage)
    (hc : create_tensor key cap emptyStorage = .ok st0)
    (ha1 : add_samples_to_tensor key ⟨d, s1, [d1]⟩ st0 = .ok st1)
    (ha2 : add_samples_to_tensor key ⟨d, s2, [d2]⟩ st1 = .ok st2) :
    read_samples_from_tensor key st2 (.range 0 2) false =
      .error (.dynamicTensorNumpy key) ∧
    read_samples_from_tensor key st2 (.range 0 2) true =
      .ok (.list [⟨d, s1, d1⟩, ⟨d, s2, d2⟩]) ∧
    (∀ (sel : Selection) (es : List IndexEntry),
      sel.resolve (st2.indexRec.getD []) = some es →
      ((read_samples_from_tensor key st2 sel false).isOk = true ↔
        ∀ e ∈ es, ∀ e2 ∈ es, e.shape = e2.shape)) := by
  have hs1len : s1.length ≠ 0 := by
    intro h0
    apply hne
    rw [List.eq_nil_of_length_eq_zero h0,
      List.eq_nil_of_length_eq_zero (by omega : s2.length = 0)]
  have hcr : create_tensor key cap emptyStorage =
      .ok ⟨some (freshTensorMeta cap), some [], []⟩ := rfl
  rw [hcr] at hc
  injection hc with hc'
  subst hc'
  rw [add_fresh_explicit key d s1 d1 cap [] [] h1] at ha1
  simp only [List.nil_append] at ha1
  injection ha1 with ha1'
  subst ha1'
  rw [add_one_explicit key d s2 d2 ⟨d, s1, s1, cap, 1⟩ _ _ hs1len rfl hrank h2] at ha2
  simp only [List.cons_append, List.nil_append] at ha2
  injection ha2 with ha2'
  subst ha2'
  have hresA : Selection.resolve (.range 0 2)
      [⟨(write_bytes_refs cap d1 []).1, s1⟩,
        ⟨(write_bytes_refs cap d2 (write_bytes_refs cap d1 []).2).1, s2⟩] =
      some [⟨(write_bytes_refs cap d1 []).1, s1⟩,
        ⟨(write_bytes_refs cap d2 (write_bytes_refs cap d1 []).2).1, s2⟩] := by
    simp [Selection.resolve]
  refine ⟨?_, ?_, ?_⟩
  · have hchkA : checkShapes key false
        [⟨(write_bytes_refs cap d1 []).1, s1⟩,
          ⟨(write_bytes_refs cap d2 (write_bytes_refs cap d1 []).2).1, s2⟩] =
        some (.dynamicTensorNumpy key) := by
      simp [checkShapes, lastShapeInit, scanShapes, hne]
    exact read_error_of_check key _ _ _ _ false _ _ hresA hchkA
  · have hnzB : ∀ e ∈ [(⟨(write_bytes_refs cap d1 []).1, s1⟩ : IndexEntry),
        ⟨(write_bytes_refs cap d2 (write_bytes_refs cap d1 []).2).1, s2⟩],
        0 ∉ e.shape := by
      intro e he
      rcases List.mem_cons.mp he with rfl | he'
      · exact h1
      · rcases List.mem_cons.mp he' with rfl | he''
        · exact h2
        · simp at he''
    have hchkB : checkShapes key true
        [⟨(write_bytes_refs cap d1 []).1, s1⟩,
          ⟨(write_bytes_refs cap d2 (write_bytes_refs cap d1 []).2).1, s2⟩] =
        none := scanShapes_aslist_none key _ _ hnzB
    rw [read_ok_of_checks key _ _ _ (.range 0 2) true _ hresA hchkB]
    have hsample1 : sample_from_index_entry
        (write_bytes_refs cap d2 (write_bytes_refs cap d1 []).2).2 d
        ⟨(write_bytes_refs cap d1 []).1, s1⟩ = ⟨d, s1, d1⟩ := by
      unfold sample_from_index_entry
      dsimp only
      rw [List.map_congr_left (fun r hr =>
        write_bytes_refs_stable cap d2 (write_bytes_refs cap d1 []).2 r
          (write_bytes_refs_valid cap d1 [] r hr)),
        write_bytes_refs_reconstruct cap hcap d1 []]
    have hsample2 : sample_from_index_entry
        (write_bytes_refs cap d2 (write_bytes_refs cap d1 []).2).2 d
        ⟨(write_bytes_refs cap d2 (write_bytes_refs cap d1 []).2).1, s2⟩ =
        ⟨d, s2, d2⟩ := by
      unfold sample_from_index_entry
      dsimp only
      rw [write_bytes_refs_reconstruct cap hcap d2 (write_bytes_refs cap d1 []).2]
    simp only [Selection.subscriptable, if_pos rfl, List.map_cons, List.map_nil]
    rw [hsample1, hsample2]
    simp
  · intro sel es hres'
    simp only [Option.getD_some] at hres'
    have hnz : ∀ e ∈ es, 0 ∉ e.shape := by
      intro e he
      have hmem := resolve_mem sel _ es hres' e he
      rcases List.mem_cons.mp hmem with rfl | hmem'
      · exact h1
      · rcases List.mem_cons.mp hmem' with rfl | hmem''
        · exact h2
        · simp at hmem''
    have hiff := checkShapes_allEqual_iff key es hnz
    cases hchk : checkShapes key false es with
    | none =>
      refine ⟨fun _ => hiff.mp hchk, fun _ => ?_⟩
      rw [read_ok_of_checks key _ _ _ sel false es hres' hchk]
      by_cases hsub : sel.subscriptable = true
      · simp [hsub, Except.isOk, Except.toBool]
      · simp [hsub, Except.isOk, Except.toBool]
    | some err =>
      rw [read_error_of_check key _ _ _ sel false es err hres' hchk]
      constructor
      · intro hok
        exact absurd hok (by simp [Except.isOk, Except.toBool])
      · intro hpair
        exact absurd (hiff.mpr hpair) (by rw [hchk]; simp)

theorem C4_witness :
    (1 ≤ 3) ∧ (([2] : List Nat).length = ([3] : List Nat).length) ∧
    (([2] : List Nat) ≠ [3]) ∧ (0 ∉ ([2] : List Nat)) ∧ (0 ∉ ([3] : List Nat)) ∧
    create_tensor "k" 3 emptyStorage = .ok ⟨some (freshTensorMeta 3), some [], []⟩ ∧
    add_samples_to_tensor "k" ⟨"u8", [2], [[1, 2]]⟩
        ⟨some (freshTensorMeta 3), some [], []⟩ =
      .ok ⟨some ⟨"u8", [2], [2], 3, 1⟩, some [⟨[⟨0, 0, 2⟩], [2]⟩], [[1, 2]]⟩ ∧
    add_samples_to_tensor "k" ⟨"u8", [3], [[3, 4, 5]]⟩
        ⟨some ⟨"u8", [2], [2], 3, 1⟩, some [⟨[⟨0, 0, 2⟩], [2]⟩], [[1, 2]]⟩ =
      .ok c4St2 ∧
    (read_samples_from_tensor "k" c4St2 (.range 0 2) false =
        .error (.dynamicTensorNumpy "k") ∧
      read_samples_from_tensor "k" c4St2 (.range 0 2) true =
        .ok (.list [⟨"u8", [2], [1, 2]⟩, ⟨"u8", [3], [3, 4, 5]⟩]) ∧
      (∀ (sel : Selection) (es : List IndexEntry),
        sel.resolve (c4St2.indexRec.getD []) = some es →
        ((read_samples_from_tensor "k" c4St2 sel false).isOk = true ↔
          ∀ e ∈ es, ∀ e2 ∈ es, e.shape = e2.shape))) :=
  ⟨by decide, by decide, by decide, by decide, by decide, rfl, rfl, rfl,
    C4_ragged_semantics "k" "u8" 3 [2] [3] [1, 2] [3, 4, 5] (by decide) (by decide)
      (by decide) (by decide) (by decide)
      ⟨some (freshTensorMeta 3), some [], []⟩
      ⟨some ⟨"u8", [2], [2], 3, 1⟩,
        some [⟨[⟨0, 0, 2⟩], [2]⟩], [[1, 2]]⟩
      c4St2 rfl rfl rfl⟩

/-- C7: appending any nonempty sequence of same-rank, same-dtype samples
to a fresh tensor succeeds, and afterwards `min_shape` and `max_shape`
each have length equal to the rank and are, on every axis, the exact
minimum (respectively maximum) attained over all appended shapes. -/
theorem C7_envelope (key d : String) (cap R : Nat)
    (sd : List (List Nat × List Nat)) (hne : sd ≠ [])
    (hrank : ∀ p ∈ sd, p.1.length = R) (st0 : TensorStorage)
    (hc : create_tensor key cap emptyStorage = .ok st0) :
    ∃ st m, appendSamples key d sd st0 = .ok st ∧ st.metaRec = some m ∧
      m.min_shape.length = R ∧ m.max_shape.length = R ∧
      (∀ j, j < R →
        ((∀ p ∈ sd, m.min_shape.getD j 0 ≤ p.1.getD j 0) ∧
         (∃ p ∈ sd, m.min_shape.getD j 0 = p.1.getD j 0) ∧
         (∀ p ∈ sd, p.1.getD j 0 ≤ m.max_shape.getD j 0) ∧
         (∃ p ∈ sd, m.max_shape.getD j 0 = p.1.getD j 0))) := by
  have hcr : create_tensor key cap emptyStorage =
      .ok ⟨some (freshTensorMeta cap), some [], []⟩ := rfl
  rw [hcr] at hc
  injection hc with hc'
  subst hc'
  match sd, hne with
  | p0 :: rest, _ =>
    have hp0 : p0.1.length = R := hrank p0 (List.mem_cons_self p0 rest)
    obtain ⟨ch2, e2, heq⟩ := add_first_env key d p0.1 p0.2 cap [] []
    obtain ⟨st, m2, happ, hmr, hmin, hmax, hl1, hl2⟩ :=
      appendSamples_env key d rest ⟨d, p0.1, p0.1, cap, 1⟩ e2 ch2 rfl
        (fun q hq => by
          show q.1.length = p0.1.length
          rw [hrank q (List.mem_cons_of_mem p0 hq), hp0])
        rfl
    have hrest : ∀ q ∈ rest, q.1.length = p0.1.length := by
      intro q hq
      rw [hrank q (List.mem_cons_of_mem p0 hq), hp0]
    refine ⟨st, m2, ?_, hmr, ?_, ?_, ?_⟩
    · rw [appendSamples, heq]
      exact happ
    · rw [hl1]
      exact hp0
    · rw [hl2]
      exact hp0
    · intro j hj
      have hjp : j < p0.1.length := by omega
      have hgmin : m2.min_shape.getD j 0 =
          rest.foldl (fun a p => min a (p.1.getD j 0)) (p0.1.getD j 0) := by
        rw [hmin]
        exact foldl_zipWith_getD min j rest p0.1 hrest hjp
      have hgmax : m2.max_shape.getD j 0 =
          rest.foldl (fun a p => max a (p.1.getD j 0)) (p0.1.getD j 0) := by
        rw [hmax]
        exact foldl_zipWith_getD max j rest p0.1 hrest hjp
      refine ⟨?_, ?_, ?_, ?_⟩
      · intro q hq
        rcases List.mem_cons.mp hq with rfl | hq'
        · rw [hgmin]
          exact foldl_minf_le_init (fun p => p.1.getD j 0) rest (q.1.getD j 0)
        · rw [hgmin]
          exact foldl_minf_le_mem (fun p => p.1.getD j 0) rest (p0.1.getD j 0) q hq'
      · rcases foldl_minf_attained (fun p => p.1.getD j 0) rest (p0.1.getD j 0)
          with hA | ⟨x, hx, hA⟩
        · exact ⟨p0, List.mem_cons_self p0 rest, by rw [hgmin]; exact hA⟩
        · exact ⟨x, List.mem_cons_of_mem p0 hx, by rw [hgmin]; exact hA⟩
      · intro q hq
        rcases List.mem_cons.mp hq with rfl | hq'
        · rw [hgmax]
          exact foldl_maxf_ge_init (fun p => p.1.getD j 0) rest (q.1.getD j 0)
        · rw [hgmax]
          exact foldl_maxf_ge_mem (fun p => p.1.getD j 0) rest (p0.1.getD j 0) q hq'
      · rcases foldl_maxf_attained (fun p => p.1.getD j 0) rest (p0.1.getD j 0)
          with hA | ⟨x, hx, hA⟩
        · exact ⟨p0, List.mem_cons_self p0 rest, by rw [hgmax]; exact hA⟩
        · exact ⟨x, List.mem_cons_of_mem p0 hx, by rw [hgmax]; exact hA⟩

theorem C7_witness :
    (([([3, 5], [1]), ([4, 2], [2])] : List (List Nat × List Nat)) ≠ []) ∧
    (∀ p ∈ ([([3, 5], [1]), ([4, 2], [2])] : List (List Nat × List Nat)),
      p.1.length = 2) ∧
    create_tensor "k" 8 emptyStorage = .ok ⟨some (freshTensorMeta 8), some [], []⟩ ∧
    (∃ st m, appendSamples "k" "u8" [([3, 5], [1]), ([4, 2], [2])]
        ⟨some (freshTensorMeta 8), some [], []⟩ = .ok st ∧
      st.metaRec = some m ∧
      m.min_shape.length = 2 ∧ m.max_shape.length = 2 ∧
      (∀ j, j < 2 →
        ((∀ p ∈ ([([3, 5], [1]), ([4, 2], [2])] : List (List Nat × List Nat)),
            m.min_shape.getD j 0 ≤ p.1.getD j 0) ∧
         (∃ p ∈ ([([3, 5], [1]), ([4, 2], [2])] : List (List Nat × List Nat)),
            m.min_shape.getD j 0 = p.1.getD j 0) ∧
         (∀ p ∈ ([([3, 5], [1]), ([4, 2], [2])] : List (List Nat × List Nat)),
            p.1.getD j 0 ≤ m.max_shape.getD j 0) ∧
         (∃ p ∈ ([([3, 5], [1]), ([4, 2], [2])] : List (List Nat × List Nat)),
            m.max_shape.getD j 0 = p.1.getD j 0)))) :=
  ⟨by decide, by decide, rfl,
    C7_envelope "k" "u8" 8 2 [([3, 5], [1]), ([4, 2], [2])] (by decide) (by decide)
      ⟨some (freshTensorMeta 8), some [], []⟩ rfl⟩

/-- C8 counterexample: selecting both entries of `c8Storage` with
`aslist = false` includes a sample whose recorded shape contains a
zero-length axis, yet the read fails with the ragged-read error
(`DynamicTensorNumpyError`) — the per-entry ragged check runs before the
zero-axis check — not with the unsupported-empty-sample error the claim
names. -/
theorem C8_counterexample :
    read_samples_from_tensor "t" c8Storage (.range 0 2) false =
        .error (.dynamicTensorNumpy "t") ∧
    read_samples_from_tensor "t" c8Storage (.range 0 2) false ≠
        .error .notImplemented :=
  ⟨rfl, by
    intro h
    rw [show read_samples_from_tensor "t" c8Storage (.range 0 2) false =
      .error (.dynamicTensorNumpy "t") from rfl] at h
    injection h with h'
    exact HubError.noConfusion h'⟩

/-- C8 (amended): a read whose resolved selection includes an entry whose
recorded shape contains a zero-length axis never succeeds and never skips
the sample: with `aslist` it fails with the unsupported-empty-sample
error; without `aslist` it fails with that same error whenever all
selected shapes are identical, and otherwise with either that error or
the ragged-read error, whichever check fires first. -/
theorem C8_empty_sample_read (key : String) (meta : TensorMeta)
    (entries : List IndexEntry) (chunks : List (List Nat))
    (sel : Selection) (es : List IndexEntry)
    (hres : sel.resolve entries = some es)
    (hz : ∃ e ∈ es, 0 ∈ e.shape) :
    read_samples_from_tensor key ⟨some meta, some entries, chunks⟩ sel true =
      .error .notImplemented ∧
    ((∀ e ∈ es, ∀ e2 ∈ es, e.shape = e2.shape) →
      read_samples_from_tensor key ⟨some meta, some entries, chunks⟩ sel false =
        .error .notImplemented) ∧
    (read_samples_from_tensor key ⟨some meta, some entries, chunks⟩ sel false =
        .error .notImplemented ∨
      read_samples_from_tensor key ⟨some meta, some entries, chunks⟩ sel false =
        .error (.dynamicTensorNumpy key)) := by
  have hne : es ≠ [] := by
    rcases hz with ⟨e, he, _⟩
    intro h0
    rw [h0] at he
    simp at he
  refine ⟨?_, ?_, ?_⟩
  · exact read_error_of_check key meta entries chunks sel true es _ hres
      (scanShapes_aslist_zero key es _ hz)
  · intro hall
    have hlast : (es.getLast hne) ∈ es := List.getLast_mem hne
    have hallLast : ∀ e ∈ es, e.shape = lastShapeInit es := by
      intro e he
      have : lastShapeInit es = (es.getLast hne).shape := by
        rw [lastShapeInit, List.getLast?_eq_getLast es hne]
      rw [this]
      exact hall e he _ hlast
    have hzlast : 0 ∈ lastShapeInit es := by
      rcases hz with ⟨e, he, hze⟩
      rw [← hallLast e he]
      exact hze
    exact read_error_of_check key meta entries chunks sel false es _ hres
      (scanShapes_allEq_zero key false (lastShapeInit es) es hne hallLast hzlast)
  · rcases scanShapes_zero_cases key es (lastShapeInit es) hz with hcase | hcase
    · exact Or.inl (read_error_of_check key meta entries chunks sel false es _ hres hcase)
    · exact Or.inr (read_error_of_check key meta entries chunks sel false es _ hres hcase)

theorem C8_witness :
    (Selection.resolve (.range 0 2) [⟨[], [0]⟩, ⟨[], [0]⟩] =
      some [⟨[], [0]⟩, ⟨[], [0]⟩]) ∧
    (∃ e ∈ ([⟨[], [0]⟩, ⟨[], [0]⟩] : List IndexEntry), 0 ∈ e.shape) ∧
    (read_samples_from_tensor "w" ⟨some ⟨"u8", [0], [0], 4, 2⟩,
        some [⟨[], [0]⟩, ⟨[], [0]⟩], []⟩ (.range 0 2) true =
      .error .notImplemented ∧
    ((∀ e ∈ ([⟨[], [0]⟩, ⟨[], [0]⟩] : List IndexEntry),
        ∀ e2 ∈ ([⟨[], [0]⟩, ⟨[], [0]⟩] : List IndexEntry), e.shape = e2.shape) →
      read_samples_from_tensor "w" ⟨some ⟨"u8", [0], [0], 4, 2⟩,
          some [⟨[], [0]⟩, ⟨[], [0]⟩], []⟩ (.range 0 2) false =
        .error .notImplemented) ∧
    (read_samples_from_tensor "w" ⟨some ⟨"u8", [0], [0], 4, 2⟩,
        some [⟨[], [0]⟩, ⟨[], [0]⟩], []⟩ (.range 0 2) false =
        .error .notImplemented ∨
      read_samples_from_tensor "w" ⟨some ⟨"u8", [0], [0], 4, 2⟩,
        some [⟨[], [0]⟩, ⟨[], [0]⟩], []⟩ (.range 0 2) false =
        .error (.dynamicTensorNumpy "w"))) :=
  ⟨rfl, by decide,
    C8_empty_sample_read "w" ⟨"u8", [0], [0], 4, 2⟩ [⟨[], [0]⟩, ⟨[], [0]⟩] []
      (.range 0 2) [⟨[], [0]⟩, ⟨[], [0]⟩] rfl (by decide)⟩

theorem loopEntryMeta_length (meta : TensorMeta) (arr : NpBatch) :
    (loopEntryMeta meta arr).length = meta.length := by
  unfold loopEntryMeta update_tensor_meta_with_array
  split
  · rfl
  · rfl

/-- C9: partial-batch failure exposure.  For every prefix of a batch, the
state after processing just that prefix of the per-sample loop has the
index entries of the processed samples already appended after the
pre-existing entries (one per sample unless the batch shape has a
zero-length axis), the index only ever grows from one sample to the next
(nothing is rolled back), and the stored length is still the original
one: the increment by the full batch size happens only as the single
final step of a completed `add_samples_to_tensor` call. -/
theorem C9_batch_no_rollback (key : String) (arr : NpBatch) (meta : TensorMeta)
    (entries : List IndexEntry) (chunks : List (List Nat)) (k : Nat)
    (hk : k ≤ arr.samples.length) :
    (addLoop (loopEntryMeta meta arr).chunk_size arr.sampleShape
        (arr.samples.take k) ⟨chunks, entries, loopEntryMeta meta arr⟩).meta.length =
      meta.length ∧
    (∃ t, (addLoop (loopEntryMeta meta arr).chunk_size arr.sampleShape
        (arr.samples.take k) ⟨chunks, entries, loopEntryMeta meta arr⟩).index =
        entries ++ t ∧
      t.length = if 0 ∈ arr.sampleShape then 0 else k) ∧
    (∀ j, j < arr.samples.length →
      ∃ t1, (addLoop (loopEntryMeta meta arr).chunk_size arr.sampleShape
          (arr.samples.take (j + 1)) ⟨chunks, entries, loopEntryMeta meta arr⟩).index =
        (addLoop (loopEntryMeta meta arr).chunk_size arr.sampleShape
          (arr.samples.take j) ⟨chunks, entries, loopEntryMeta meta arr⟩).index ++ t1) ∧
    (check_compat (loopEntryMeta meta arr) arr = none →
      add_samples_to_tensor key arr ⟨some meta, some entries, chunks⟩ =
        .ok ⟨some { (addLoop (loopEntryMeta meta arr).chunk_size arr.sampleShape
              arr.samples ⟨chunks, entries, loopEntryMeta meta arr⟩).meta with
            length := meta.length + arr.samples.length },
          some (addLoop (loopEntryMeta meta arr).chunk_size arr.sampleShape
            arr.samples ⟨chunks, entries, loopEntryMeta meta arr⟩).index,
          (addLoop (loopEntryMeta meta arr).chunk_size arr.sampleShape
            arr.samples ⟨chunks, entries, loopEntryMeta meta arr⟩).chunks⟩) := by
  refine ⟨?_, ?_, ?_, ?_⟩
  · rw [addLoop_meta_length]
    exact loopEntryMeta_length meta arr
  · obtain ⟨t, ht, hl⟩ := addLoop_index_grows
      (loopEntryMeta meta arr).chunk_size arr.sampleShape (arr.samples.take k)
      ⟨chunks, entries, loopEntryMeta meta arr⟩
    refine ⟨t, ht, ?_⟩
    rw [hl, List.length_take]
    by_cases hz : 0 ∈ arr.sampleShape
    · simp [hz]
    · simp only [hz, if_false]
      omega
  · intro j hj
    have hsucc : arr.samples.take (j + 1) =
        arr.samples.take j ++ [arr.samples[j]] := by
      rw [List.take_succ, List.getElem?_eq_getElem hj]
      rfl
    rw [hsucc]
    unfold addLoop
    rw [List.foldl_append]
    simp only [List.foldl_cons, List.foldl_nil]
    obtain ⟨t1, ht1, _⟩ := addSampleStep_index_grows
      (loopEntryMeta meta arr).chunk_size arr.sampleShape
      (List.foldl (addSampleStep (loopEntryMeta meta arr).chunk_size arr.sampleShape)
        ⟨chunks, entries, loopEntryMeta meta arr⟩ (arr.samples.take j))
      arr.samples[j]
    exact ⟨t1, ht1⟩
  · intro hchk
    unfold add_samples_to_tensor
    dsimp only
    rw [show (if meta.max_shape.length ≤ 0
        then update_tensor_meta_with_array meta arr else meta) =
      loopEntryMeta meta arr from rfl]
    rw [hchk]
    have hlen : (addLoop (loopEntryMeta meta arr).chunk_size arr.sampleShape
        arr.samples ⟨chunks, entries, loopEntryMeta meta arr⟩).meta.length =
        meta.length := by
      rw [addLoop_meta_length]
      exact loopEntryMeta_length meta arr
    rw [hlen]

theorem C9_witness :
    (1 ≤ c9Arr.samples.length) ∧
    ((addLoop (loopEntryMeta c9Meta c9Arr).chunk_size c9Arr.sampleShape
        (c9Arr.samples.take 1) ⟨[], c9Entries, loopEntryMeta c9Meta c9Arr⟩).meta.length =
      c9Meta.length ∧
    (∃ t, (addLoop (loopEntryMeta c9Meta c9Arr).chunk_size c9Arr.sampleShape
        (c9Arr.samples.take 1) ⟨[], c9Entries, loopEntryMeta c9Meta c9Arr⟩).index =
        c9Entries ++ t ∧
      t.length = if 0 ∈ c9Arr.sampleShape then 0 else 1) ∧
    (∀ j, j < c9Arr.samples.length →
      ∃ t1, (addLoop (loopEntryMeta c9Meta c9Arr).chunk_size c9Arr.sampleShape
          (c9Arr.samples.take (j + 1)) ⟨[], c9Entries, loopEntryMeta c9Meta c9Arr⟩).index =
        (addLoop (loopEntryMeta c9Meta c9Arr).chunk_size c9Arr.sampleShape
          (c9Arr.samples.take j) ⟨[], c9Entries, loopEntryMeta c9Meta c9Arr⟩).index ++ t1) ∧
    (check_compat (loopEntryMeta c9Meta c9Arr) c9Arr = none →
      add_samples_to_tensor "k" c9Arr ⟨some c9Meta, some c9Entries, []⟩ =
        .ok ⟨some { (addLoop (loopEntryMeta c9Meta c9Arr).chunk_size c9Arr.sampleShape
              c9Arr.samples ⟨[], c9Entries, loopEntryMeta c9Meta c9Arr⟩).meta with
            length := c9Meta.length + c9Arr.samples.length },
          some (addLoop (loopEntryMeta c9Meta c9Arr).chunk_size c9Arr.sampleShape
            c9Arr.samples ⟨[], c9Entries, loopEntryMeta c9Meta c9Arr⟩).index,
          (addLoop (loopEntryMeta c9Meta c9Arr).chunk_size c9Arr.sampleShape
            c9Arr.samples ⟨[], c9Entries, loopEntryMeta c9Meta c9Arr⟩).chunks⟩)) :=
  ⟨by decide, C9_batch_no_rollback "k" c9Arr c9Meta c9Entries [] 1 (by decide)⟩
